import Mathlib

/-!
Verification of the connection-supervised retry runner of
`nodejs-reload-on-actyx-disconnect` (`src/index.ts`).

The source is TypeScript built on JavaScript promises.  We embed it shallowly:

* JavaScript runtime values that flow through the race in `withSdk` are
  modelled by `JsVal`, with `instanceofError` playing the role of the
  `result instanceof Error` test.
* A promise is a one-shot cell: repeated resolution calls are folded with
  `resolveOnce`, so only the first call can set the value (`runResolves`).
* `loadSdk` takes the outcome of the initial `SDK.of` connection attempt and
  the (time-stamped) sequence of `onConnectionLost` callback invocations the
  transport will perform, and returns the handle paired with the one-shot
  loss signal, or the connection error.
* `withSdk` races the work function against the loss signal.  Which of the
  two settles first is scheduler-determined, so it is an explicit input
  (`RaceWinner`); the settled value then goes through the
  `instanceof Error` check exactly as in the source.  The side effects the
  caller can observe (the race settling, `sdk.dispose()`) are returned as an
  event trace.
* `withRetry` is the retry loop.  The loop may run forever (unlimited
  retries), so the embedding is fuel-indexed: `fuel` bounds how many loop
  iterations we observe, and the outcome `RetryOutcome.running` means the
  loop was still going when the observation budget ran out.  Each call of
  the retried operation and each inter-attempt sleep is recorded in a trace
  of `RetryEvent`s; the operation is an oracle `Nat → Except E T` giving the
  outcome of its i-th invocation.
-/

namespace ActyxReload

/-- A JavaScript runtime value, as far as the race result check in `withSdk`
can distinguish them: `Error` instances (with their message) versus plain
values. -/
inductive JsVal where
  | jsError (msg : String)
  | jsBool (b : Bool)
  | jsNum (n : Int)
  | jsStr (s : String)
  | jsNull
  deriving DecidableEq, Repr

/-- The `result instanceof Error` test of `withSdk`. -/
def instanceofError : JsVal → Bool
  | .jsError _ => true
  | _ => false

/-- The error value `loadSdk` resolves the loss promise with:
`new Error("Actyx SDK lost its connection to the local Actyx node")`. -/
def lostError : JsVal :=
  .jsError "Actyx SDK lost its connection to the local Actyx node"

/-- One resolution call against a one-shot promise cell: a promise that is
already settled ignores further resolutions. -/
def resolveOnce (cell : Option α) (v : α) : Option α :=
  match cell with
  | some w => some w
  | none => some v

/-- The value a one-shot promise ends up with after a sequence of resolution
calls (in call order), starting unsettled. -/
def runResolves (calls : List α) : Option α :=
  calls.foldl resolveOnce none

instance {E T : Type} [DecidableEq E] [DecidableEq T] : DecidableEq (Except E T) := fun a b =>
  match a, b with
  | .ok x, .ok y => decidable_of_iff (x = y) (by simp)
  | .ok _, .error _ => .isFalse (by simp)
  | .error _, .ok _ => .isFalse (by simp)
  | .error x, .error y => decidable_of_iff (x = y) (by simp)

/-- Environment of one `loadSdk` call: the outcome of the initial `SDK.of`
connection attempt, and the times at which the transport invokes the
`onConnectionLost` callback (in order; empty if the connection is never
lost). -/
structure LoadEnv where
  connect : Except JsVal Unit
  lossTimes : List Nat
  deriving DecidableEq

/-- The settled state of the `connectionLost` promise built by `loadSdk`:
each `onConnectionLost` invocation resolves it with `lostError`, and the
promise is one-shot. -/
def signalResolution (lossTimes : List Nat) : Option (Nat × JsVal) :=
  runResolves (lossTimes.map fun t => (t, lostError))

/-- `loadSdk`: awaits `SDK.of`; on failure the error propagates and neither
a handle nor a loss signal is produced; on success it returns the handle
(modelled as `Unit`) together with the one-shot loss signal. -/
def loadSdk (env : LoadEnv) : Except JsVal (Unit × Option (Nat × JsVal)) :=
  match env.connect with
  | .error e => .error e
  | .ok h => .ok (h, signalResolution env.lossTimes)

/-- Which of the two promises in `Promise.race([run(sdk), connectionWasLost])`
settles first; this is decided by the scheduler, hence an input. -/
inductive RaceWinner where
  | workFirst
  | lossFirst
  deriving DecidableEq

/-- Environment of one `withSdk` call: the `loadSdk` environment, the race
winner, and the outcome with which `run(sdk)` settles (when it does). -/
structure SdkEnv where
  load : LoadEnv
  winner : RaceWinner
  workResult : Except JsVal JsVal

/-- Caller-observable side effects of `withSdk`, in order. -/
inductive SdkEvent where
  | raceSettled
  | dispose
  deriving DecidableEq, Repr

/-- The settled outcome of `Promise.race([run(sdk), connectionWasLost])`:
the work promise settles with its own outcome (value or rejection); the
loss promise never rejects and resolves with the value it was resolved
with. -/
def raceResult (winner : RaceWinner) (work : Except JsVal JsVal)
    (signal : Option (Nat × JsVal)) : Except JsVal JsVal :=
  match winner with
  | .workFirst => work
  | .lossFirst => .ok ((signal.map Prod.snd).getD lostError)

/-- `withSdk`: load the SDK (propagating a connection error), race the work
function against the loss signal, throw the raced result if it is an
`Error` instance, otherwise dispose the handle and return it.  The second
component is the trace of observable side effects. -/
def withSdk (env : SdkEnv) : Except JsVal JsVal × List SdkEvent :=
  match loadSdk env.load with
  | .error e => (.error e, [])
  | .ok (_, signal) =>
    match raceResult env.winner env.workResult signal with
    | .error e => (.error e, [.raceSettled])
    | .ok v =>
      if instanceofError v then (.error v, [.raceSettled])
      else (.ok v, [.raceSettled, .dispose])

/-- The optional configuration record of `withRetry`. -/
structure RetryCfg where
  retryTimeoutMs : Option Nat
  maxRetries : Option Nat
  deriving DecidableEq

/-- `cfg?.retryTimeoutMs !== undefined ? cfg.retryTimeoutMs : 0`. -/
def retryTimeoutOf (cfg : Option RetryCfg) : Nat :=
  match cfg with
  | some c =>
    match c.retryTimeoutMs with
    | some t => t
    | none => 0
  | none => 0

/-- `cfg?.maxRetries`. -/
def maxRetriesOf (cfg : Option RetryCfg) : Option Nat :=
  match cfg with
  | some c => c.maxRetries
  | none => none

/-- The loop's abort test after a failure and the `numRetries++` increment:
`cfg?.maxRetries !== undefined && numRetries > cfg.maxRetries`. -/
def retriesExhausted (cfg : Option RetryCfg) (numRetries : Nat) : Bool :=
  match maxRetriesOf cfg with
  | some m => numRetries > m
  | none => false

/-- An observable event of the retry loop: invoking the operation for its
i-th attempt (0-based), or sleeping between attempts. -/
inductive RetryEvent where
  | invoke (attempt : Nat)
  | sleepMs (ms : Nat)
  deriving DecidableEq, Repr

/-- Outcome of observing the retry loop for a bounded number of iterations:
terminated with a value, terminated by re-raising an error, or still
running when the observation budget ran out. -/
inductive RetryOutcome (E T : Type) where
  | ok (v : T)
  | err (e : E)
  | running
  deriving DecidableEq

/-- The body of `withRetry`'s `while (true)` loop, observed for `fuel`
iterations starting from counter value `numRetries`.  One iteration invokes
the operation; on success it returns the value; on failure it increments
the counter, aborts with the error if the cap is exceeded, and otherwise
sleeps `retryTimeoutOf cfg` milliseconds and iterates. -/
def withRetryGo {E T : Type} (cfg : Option RetryCfg) (run : Nat → Except E T) :
    Nat → Nat → List RetryEvent × RetryOutcome E T
  | _, 0 => ([], .running)
  | numRetries, fuel + 1 =>
    match run numRetries with
    | .ok v => ([.invoke numRetries], .ok v)
    | .error e =>
      if retriesExhausted cfg (numRetries + 1) then
        ([.invoke numRetries], .err e)
      else
        (.invoke numRetries :: .sleepMs (retryTimeoutOf cfg) ::
            (withRetryGo cfg run (numRetries + 1) fuel).1,
          (withRetryGo cfg run (numRetries + 1) fuel).2)

/-- `withRetry cfg run fuel`: the retry loop started with counter 0,
observed for at most `fuel` iterations. -/
def withRetry {E T : Type} (cfg : Option RetryCfg) (run : Nat → Except E T)
    (fuel : Nat) : List RetryEvent × RetryOutcome E T :=
  withRetryGo cfg run 0 fuel

/-- Whether a retry event is an invocation of the operation. -/
def isInvoke : RetryEvent → Bool
  | .invoke _ => true
  | .sleepMs _ => false

/-- Number of times the retried operation was invoked, read off the trace. -/
def invokeCount (tr : List RetryEvent) : Nat :=
  (tr.filter isInvoke).length

/-- Last element of a list (helper for trace statements). -/
def lastElemAux (a : α) : List α → α
  | [] => a
  | b :: rest => lastElemAux b rest

/-- Last element of a list, `none` on the empty list. -/
def lastElem : List α → Option α
  | [] => none
  | a :: rest => some (lastElemAux a rest)

/-- Whether an optional retry event is an operation invocation. -/
def optIsInvoke : Option RetryEvent → Bool
  | some (.invoke _) => true
  | _ => false

/-! ### Helper lemmas -/

theorem lastElem_cons_cons (a b : α) (l : List α) :
    lastElem (a :: b :: l) = lastElem (b :: l) := rfl

theorem invokeCount_invoke_cons (k : Nat) (tr : List RetryEvent) :
    invokeCount (.invoke k :: tr) = invokeCount tr + 1 := by
  simp [invokeCount, isInvoke, List.filter_cons]

theorem invokeCount_sleep_cons (ms : Nat) (tr : List RetryEvent) :
    invokeCount (.sleepMs ms :: tr) = invokeCount tr := by
  simp [invokeCount, isInvoke, List.filter_cons]

theorem foldl_resolveOnce_some (w : α) (l : List α) :
    l.foldl resolveOnce (some w) = some w := by
  induction l with
  | nil => rfl
  | cons a t ih => simpa [resolveOnce] using ih

/-- A one-shot promise ends up holding the value of the first resolution
call; later calls are ignored. -/
theorem runResolves_eq_head (l : List α) : runResolves l = l.head? := by
  cases l with
  | nil => rfl
  | cons a t =>
    simp only [runResolves, List.foldl_cons, resolveOnce, List.head?]
    exact foldl_resolveOnce_some a t

theorem signalResolution_cons (a : Nat) (l : List Nat) :
    signalResolution (a :: l) = some (a, lostError) := by
  simp [signalResolution, runResolves_eq_head]

/-- Exhausting a finite retry cap: starting the loop at counter `c ≤ m`
with every invocation failing, the loop performs exactly `m + 1 - c` more
invocations and re-raises the error of attempt `m`. -/
theorem withRetryGo_allFail_bounded {E T : Type} (cfg : Option RetryCfg) (m : Nat)
    (hm : maxRetriesOf cfg = some m) (errs : Nat → E) :
    ∀ fuel c, c ≤ m → m + 1 - c ≤ fuel →
      invokeCount (withRetryGo (T := T) cfg (fun i => Except.error (errs i)) c fuel).1 =
        m + 1 - c ∧
      (withRetryGo (T := T) cfg (fun i => Except.error (errs i)) c fuel).2 =
        RetryOutcome.err (errs m) := by
  intro fuel
  induction fuel with
  | zero =>
    intro c hc hf
    omega
  | succ fuel ih =>
    intro c hc hf
    rcases Nat.lt_or_ge c m with hlt | hge
    · have hne : retriesExhausted cfg (c + 1) = false := by
        simp only [retriesExhausted, hm]
        simp only [gt_iff_lt, decide_eq_false_iff_not, not_lt]
        omega
      obtain ⟨ih1, ih2⟩ := ih (c + 1) (by omega) (by omega)
      constructor
      · simp only [withRetryGo, hne, Bool.false_eq_true, if_false,
          invokeCount_invoke_cons, invokeCount_sleep_cons, ih1]
        omega
      · simp only [withRetryGo, hne, Bool.false_eq_true, if_false]
        exact ih2
    · have hcm : c = m := Nat.le_antisymm hc hge
      subst hcm
      have hex : retriesExhausted cfg (c + 1) = true := by
        simp only [retriesExhausted, hm]
        simp only [gt_iff_lt, decide_eq_true_eq]
        omega
      constructor
      · simp only [withRetryGo, hex, if_true]
        simp [invokeCount, isInvoke]
      · simp only [withRetryGo, hex, if_true]

/-- Success at attempt `j` with all earlier attempts failing and the cap not
hit on the way: exactly `j + 1 - c` more invocations, returning the value. -/
theorem withRetryGo_succeedsAt {E T : Type} (cfg : Option RetryCfg)
    (run : Nat → Except E T) (j : Nat) (v : T) (hsucc : run j = Except.ok v)
    (hne : ∀ i, i ≤ j → retriesExhausted cfg i = false) :
    ∀ fuel c, c ≤ j → j + 1 - c ≤ fuel →
      (∀ i, c ≤ i → i < j → ∃ e, run i = Except.error e) →
      invokeCount (withRetryGo cfg run c fuel).1 = j + 1 - c ∧
      (withRetryGo cfg run c fuel).2 = RetryOutcome.ok v := by
  intro fuel
  induction fuel with
  | zero =>
    intro c hc hf _
    omega
  | succ fuel ih =>
    intro c hc hf hfail
    rcases Nat.lt_or_ge c j with hlt | hge
    · obtain ⟨e, he⟩ := hfail c (Nat.le_refl c) hlt
      have hx : retriesExhausted cfg (c + 1) = false := hne (c + 1) (by omega)
      obtain ⟨ih1, ih2⟩ := ih (c + 1) (by omega) (by omega)
        (fun i h1 h2 => hfail i (by omega) h2)
      constructor
      · simp only [withRetryGo, he, hx, Bool.false_eq_true, if_false,
          invokeCount_invoke_cons, invokeCount_sleep_cons, ih1]
        omega
      · simp only [withRetryGo, he, hx, Bool.false_eq_true, if_false]
        exact ih2
    · have hcj : c = j := Nat.le_antisymm hc hge
      subst hcj
      constructor
      · simp only [withRetryGo, hsucc]
        simp [invokeCount, isInvoke]
      · simp only [withRetryGo, hsucc]

/-- Unlimited retries over an always-failing operation: the loop never
terminates; each observed iteration is one invocation. -/
theorem withRetryGo_unlimited_allFail {E T : Type} (cfg : Option RetryCfg)
    (hm : maxRetriesOf cfg = none) (errs : Nat → E) :
    ∀ fuel c,
      invokeCount (withRetryGo (T := T) cfg (fun i => Except.error (errs i)) c fuel).1 =
        fuel ∧
      (withRetryGo (T := T) cfg (fun i => Except.error (errs i)) c fuel).2 =
        RetryOutcome.running := by
  intro fuel
  induction fuel with
  | zero =>
    intro c
    simp [withRetryGo, invokeCount]
  | succ fuel ih =>
    intro c
    have hne : retriesExhausted cfg (c + 1) = false := by
      simp [retriesExhausted, hm]
    obtain ⟨ih1, ih2⟩ := ih (c + 1)
    constructor
    · simp only [withRetryGo, hne, Bool.false_eq_true, if_false,
        invokeCount_invoke_cons, invokeCount_sleep_cons, ih1]
    · simp only [withRetryGo, hne, Bool.false_eq_true, if_false]
      exact ih2

/-- Every sleep event the loop emits sleeps for exactly the configured
timeout. -/
theorem withRetryGo_sleep_mem {E T : Type} (cfg : Option RetryCfg)
    (run : Nat → Except E T) :
    ∀ fuel c ms, RetryEvent.sleepMs ms ∈ (withRetryGo cfg run c fuel).1 →
      ms = retryTimeoutOf cfg := by
  intro fuel
  induction fuel with
  | zero =>
    intro c ms h
    simp [withRetryGo] at h
  | succ fuel ih =>
    intro c ms h
    cases hrun : run c with
    | ok v =>
      simp [withRetryGo, hrun] at h
    | error e =>
      cases hex : retriesExhausted cfg (c + 1) with
      | true =>
        simp [withRetryGo, hrun, hex] at h
      | false =>
        simp only [withRetryGo, hrun, hex, Bool.false_eq_true, if_false,
          List.mem_cons] at h
        rcases h with h | h | h
        · exact absurd h (by simp)
        · injection h
        · exact ih (c + 1) ms h

/-- When the loop terminates by re-raising an error, the last trace event
is the invocation of the attempt whose error is surfaced. -/
theorem withRetryGo_err_last {E T : Type} (cfg : Option RetryCfg)
    (run : Nat → Except E T) :
    ∀ fuel c e, (withRetryGo cfg run c fuel).2 = RetryOutcome.err e →
      1 ≤ invokeCount (withRetryGo cfg run c fuel).1 ∧
      lastElem (withRetryGo cfg run c fuel).1 =
        some (RetryEvent.invoke (c + invokeCount (withRetryGo cfg run c fuel).1 - 1)) ∧
      run (c + invokeCount (withRetryGo cfg run c fuel).1 - 1) = Except.error e := by
  intro fuel
  induction fuel with
  | zero =>
    intro c e h
    simp [withRetryGo] at h
  | succ fuel ih =>
    intro c e h
    cases hrun : run c with
    | ok v =>
      rw [show (withRetryGo cfg run c (fuel + 1)) =
          ([RetryEvent.invoke c], RetryOutcome.ok v) by
        simp [withRetryGo, hrun]] at h
      simp at h
    | error e2 =>
      cases hex : retriesExhausted cfg (c + 1) with
      | true =>
        rw [show (withRetryGo cfg run c (fuel + 1)) =
            ([RetryEvent.invoke c], RetryOutcome.err e2) by
          simp [withRetryGo, hrun, hex]] at h ⊢
        simp only at h
        cases h
        refine ⟨by simp [invokeCount, isInvoke], ?_, ?_⟩
        · simp [invokeCount, isInvoke, lastElem, lastElemAux]
        · simpa [invokeCount, isInvoke] using hrun
      | false =>
        rw [show (withRetryGo cfg run c (fuel + 1)) =
            (RetryEvent.invoke c :: RetryEvent.sleepMs (retryTimeoutOf cfg) ::
                (withRetryGo cfg run (c + 1) fuel).1,
              (withRetryGo cfg run (c + 1) fuel).2) by
          simp [withRetryGo, hrun, hex]] at h ⊢
        simp only at h
        obtain ⟨ih1, ih2, ih3⟩ := ih (c + 1) e h
        have hcount : invokeCount (RetryEvent.invoke c ::
            RetryEvent.sleepMs (retryTimeoutOf cfg) ::
            (withRetryGo cfg run (c + 1) fuel).1) =
            invokeCount (withRetryGo cfg run (c + 1) fuel).1 + 1 := by
          rw [invokeCount_invoke_cons, invokeCount_sleep_cons]
        rw [hcount]
        have hidx : c + (invokeCount (withRetryGo cfg run (c + 1) fuel).1 + 1) - 1 =
            c + 1 + invokeCount (withRetryGo cfg run (c + 1) fuel).1 - 1 := by
          omega
        refine ⟨by omega, ?_, ?_⟩
        · cases htr : (withRetryGo cfg run (c + 1) fuel).1 with
          | nil =>
            rw [htr] at ih1
            simp [invokeCount] at ih1
          | cons x xs =>
            rw [htr] at ih2
            have hidx2 : c + (invokeCount (x :: xs) + 1) - 1 =
                c + 1 + invokeCount (x :: xs) - 1 := by omega
            show lastElem (RetryEvent.invoke c ::
                RetryEvent.sleepMs (retryTimeoutOf cfg) :: x :: xs) =
              some (RetryEvent.invoke (c + (invokeCount (x :: xs) + 1) - 1))
            rw [lastElem_cons_cons, lastElem_cons_cons, hidx2]
            exact ih2
        · rw [hidx]
          exact ih3

/-! ### Claim theorems -/

/-- C1: for every `maxRetries = N ≥ 0` and every operation that fails on
every invocation, `withRetry` with that cap invokes the operation exactly
`N + 1` times (1 initial attempt plus `N` retries; the boundary attempt is
still allowed) and then propagates the final attempt's failure to the
caller.  `fuel ≥ N + 1` is any observation budget large enough to see the
loop terminate; the result does not depend on it. -/
theorem withRetry_alwaysFail_bounded {E T : Type} (cfg : Option RetryCfg)
    (N : Nat) (hm : maxRetriesOf cfg = some N) (errs : Nat → E)
    (fuel : Nat) (hf : N + 1 ≤ fuel) :
    invokeCount (withRetry (T := T) cfg (fun i => Except.error (errs i)) fuel).1 =
      N + 1 ∧
    (withRetry (T := T) cfg (fun i => Except.error (errs i)) fuel).2 =
      RetryOutcome.err (errs N) := by
  have h := withRetryGo_allFail_bounded (T := T) cfg N hm errs fuel 0 (Nat.zero_le N)
    (by omega)
  simpa [withRetry] using h

/-- Witness for C1: `maxRetries = 2` over an always-failing operation gives
3 invocations and surfaces the error of attempt 2. -/
theorem withRetry_alwaysFail_bounded_witness :
    invokeCount (withRetry (T := Bool) (some ⟨some 7, some 2⟩)
        (fun i => Except.error i) 5).1 = 3 ∧
    (withRetry (T := Bool) (some ⟨some 7, some 2⟩)
        (fun i => Except.error i) 5).2 = RetryOutcome.err 2 :=
  withRetry_alwaysFail_bounded (some ⟨some 7, some 2⟩) 2 rfl (fun i => i) 5
    (by decide)

/-- C3: when `withRetry` exhausts its finite cap (or terminates with an
error at all), the surfaced error is the most recent failure: the trace's
final event is the invocation of attempt `invokeCount - 1`, and the
surfaced error is exactly that attempt's error.  Intermediate errors are
not re-raised. -/
theorem withRetry_err_is_last_failure {E T : Type} (cfg : Option RetryCfg)
    (run : Nat → Except E T) (fuel : Nat) (e : E)
    (h : (withRetry cfg run fuel).2 = RetryOutcome.err e) :
    1 ≤ invokeCount (withRetry cfg run fuel).1 ∧
    lastElem (withRetry cfg run fuel).1 =
      some (RetryEvent.invoke (invokeCount (withRetry cfg run fuel).1 - 1)) ∧
    run (invokeCount (withRetry cfg run fuel).1 - 1) = Except.error e := by
  have h0 := withRetryGo_err_last cfg run fuel 0 e h
  simpa [withRetry, Nat.zero_add] using h0

/-- Witness for C3: cap 1 over attempt-indexed errors; the surfaced error
is attempt 1's error, the second and last invocation. -/
theorem withRetry_err_is_last_failure_witness :
    1 ≤ invokeCount (withRetry (T := Bool) (some ⟨some 0, some 1⟩)
        (fun i => Except.error i) 2).1 ∧
    lastElem (withRetry (T := Bool) (some ⟨some 0, some 1⟩)
        (fun i => Except.error i) 2).1 =
      some (RetryEvent.invoke (invokeCount (withRetry (T := Bool)
        (some ⟨some 0, some 1⟩) (fun i => Except.error i) 2).1 - 1)) ∧
    (fun i => (Except.error i : Except Nat Bool))
        (invokeCount (withRetry (T := Bool) (some ⟨some 0, some 1⟩)
          (fun i => Except.error i) 2).1 - 1) = Except.error 1 :=
  withRetry_err_is_last_failure (some ⟨some 0, some 1⟩)
    (fun i => Except.error i) 2 1 (by decide)

/-- C4: for every `maxRetries = N` and every operation that succeeds on its
(0-based) attempt `j ≤ N` after failing on all earlier attempts,
`withRetry` invokes the operation exactly `j + 1` times (`k = j + 1 ≤ N + 1`
in 1-based counting), returns that success value, and performs no further
invocations. -/
theorem withRetry_succeedsAt_bounded {E T : Type} (cfg : Option RetryCfg)
    (N j : Nat) (hm : maxRetriesOf cfg = some N) (hj : j ≤ N)
    (run : Nat → Except E T) (v : T) (hsucc : run j = Except.ok v)
    (hfail : ∀ i, i < j → ∃ e, run i = Except.error e)
    (fuel : Nat) (hf : j + 1 ≤ fuel) :
    invokeCount (withRetry cfg run fuel).1 = j + 1 ∧
    (withRetry cfg run fuel).2 = RetryOutcome.ok v := by
  have hne : ∀ i, i ≤ j → retriesExhausted cfg i = false := by
    intro i hi
    simp only [retriesExhausted, hm, gt_iff_lt, decide_eq_false_iff_not, not_lt]
    omega
  have h := withRetryGo_succeedsAt cfg run j v hsucc hne fuel 0 (Nat.zero_le j)
    (by omega) (fun i _ hij => hfail i hij)
  simpa [withRetry] using h

/-- Witness for C4: cap 5, failure on attempts 0 and 1, success on attempt
2: exactly 3 invocations, returning the value. -/
theorem withRetry_succeedsAt_bounded_witness :
    invokeCount (withRetry (some ⟨some 9, some 5⟩)
        (fun i => if i < 2 then Except.error i else Except.ok 42) 6).1 = 3 ∧
    (withRetry (some ⟨some 9, some 5⟩)
        (fun i => if i < 2 then Except.error i else Except.ok 42) 6).2 =
      RetryOutcome.ok 42 :=
  withRetry_succeedsAt_bounded (some ⟨some 9, some 5⟩) 5 2 rfl (by decide)
    (fun i => if i < 2 then Except.error i else Except.ok 42) 42 (by decide)
    (fun i hi => ⟨i, by simp [hi]⟩) 6 (by decide)

/-- C8: configuration defaults of `withRetry`.  When `maxRetries` is
absent, retries are unlimited: an always-failing operation is invoked once
per observed loop iteration (so at least `n` times for every budget
`n`) and no failure is ever surfaced (the loop is still running after any
budget).  When `retryTimeoutMs` is absent, the inter-attempt delay is zero
milliseconds: the effective timeout is 0 and every sleep in the trace
sleeps 0 ms. -/
theorem withRetry_config_defaults {E T : Type} (cfg : Option RetryCfg)
    (errs : Nat → E) (run : Nat → Except E T) (fuel : Nat) :
    (maxRetriesOf cfg = none →
      invokeCount (withRetry (T := T) cfg (fun i => Except.error (errs i)) fuel).1 =
        fuel ∧
      (withRetry (T := T) cfg (fun i => Except.error (errs i)) fuel).2 =
        RetryOutcome.running) ∧
    ((∀ c : RetryCfg, cfg = some c → c.retryTimeoutMs = none) →
      retryTimeoutOf cfg = 0 ∧
      ∀ ms, RetryEvent.sleepMs ms ∈ (withRetry cfg run fuel).1 → ms = 0) := by
  constructor
  · intro hm
    have h := withRetryGo_unlimited_allFail (T := T) cfg hm errs fuel 0
    simpa [withRetry] using h
  · intro ht
    have h0 : retryTimeoutOf cfg = 0 := by
      cases cfg with
      | none => rfl
      | some c =>
        have hc := ht c rfl
        simp [retryTimeoutOf, hc]
    refine ⟨h0, ?_⟩
    intro ms hms
    have h1 := withRetryGo_sleep_mem cfg run fuel 0 ms (by simpa [withRetry] using hms)
    exact h1.trans h0

/-- Witness for C8: with no configuration at all, the always-failing
operation is invoked once per observed iteration, the loop keeps running,
and the effective timeout is 0. -/
theorem withRetry_config_defaults_witness :
    (invokeCount (withRetry (T := Bool) none (fun i => Except.error i) 3).1 = 3 ∧
     (withRetry (T := Bool) none (fun i => Except.error i) 3).2 =
       RetryOutcome.running) ∧
    retryTimeoutOf none = 0 :=
  ⟨(withRetry_config_defaults none (fun i => i) (fun i => Except.error i) 3).1 rfl,
   ((withRetry_config_defaults none (fun i => i)
       (fun i => (Except.error i : Except Nat Bool)) 3).2
     (fun _ hc => Option.noConfusion hc)).1⟩

/-- C10: the inter-attempt delay is performed only before an attempt that
actually occurs: whenever the loop terminates by re-raising an error (in
particular when the retry cap is reached), the last trace event is an
operation invocation, not a sleep — there is no trailing sleep after the
last failed attempt. -/
theorem withRetry_no_trailing_sleep {E T : Type} (cfg : Option RetryCfg)
    (run : Nat → Except E T) (fuel : Nat) (e : E)
    (h : (withRetry cfg run fuel).2 = RetryOutcome.err e) :
    optIsInvoke (lastElem (withRetry cfg run fuel).1) = true := by
  obtain ⟨-, hk, -⟩ := withRetryGo_err_last cfg run fuel 0 e h
  have hk2 : lastElem (withRetry cfg run fuel).1 =
      some (RetryEvent.invoke
        (0 + invokeCount (withRetryGo cfg run 0 fuel).1 - 1)) := hk
  rw [hk2]
  rfl

/-- Witness for C10: cap 1, always failing — after the final error the
trace ends on the invocation of attempt 1, with no trailing sleep. -/
theorem withRetry_no_trailing_sleep_witness :
    optIsInvoke (lastElem (withRetry (T := Bool) (some ⟨some 250, some 1⟩)
        (fun i => Except.error i) 9).1) = true :=
  withRetry_no_trailing_sleep (some ⟨some 250, some 1⟩)
    (fun i => Except.error i) 9 1 (by decide)

/-- C5: if the initial connection attempt fails with `e`, `loadSdk` fails
with that connection error — producing neither a handle nor a loss signal —
and `withSdk` propagates the same error to its caller with no observable
side effect (no race, no work invocation, no disposal, and no retry at this
layer). -/
theorem connect_failure_propagates (e : JsVal) (lossTimes : List Nat)
    (winner : RaceWinner) (workResult : Except JsVal JsVal) :
    loadSdk ⟨Except.error e, lossTimes⟩ = Except.error e ∧
    withSdk ⟨⟨Except.error e, lossTimes⟩, winner, workResult⟩ =
      (Except.error e, []) := by
  constructor <;> rfl

/-- C7: the loss signal of a successfully opened session resolves at most
once — its settled state is determined by the first `onConnectionLost`
invocation alone — it resolves only with the descriptive `lostError`
value, and (given that the transport can only report loss strictly after
the connection was established, i.e. after the handle was returned) it
never resolves before the handle has been returned. -/
theorem lossSignal_invariants (lossTimes : List Nat) (establishTime : Nat)
    (hafter : ∀ t ∈ lossTimes, establishTime < t) :
    signalResolution lossTimes =
      lossTimes.head?.map (fun t => (t, lostError)) ∧
    ∀ t v, signalResolution lossTimes = some (t, v) →
      v = lostError ∧ establishTime < t := by
  constructor
  · cases lossTimes with
    | nil => rfl
    | cons a l =>
      rw [signalResolution_cons]
      rfl
  · intro t v h
    cases lossTimes with
    | nil =>
      simp [signalResolution, runResolves] at h
    | cons a l =>
      rw [signalResolution_cons] at h
      simp only [Option.some.injEq, Prod.mk.injEq] at h
      obtain ⟨ht, hv⟩ := h
      exact ⟨hv.symm, ht ▸ hafter a (List.mem_cons_self a l)⟩

/-- Witness for C7: two loss reports at times 5 and 9, handle returned at
time 1 — the signal settles with the first report only, carrying
`lostError`, strictly after the handle was returned. -/
theorem lossSignal_invariants_witness :
    signalResolution [5, 9] = some (5, lostError) ∧ 1 < 5 := by
  have h := lossSignal_invariants [5, 9] 1 (by decide)
  exact ⟨by decide, (h.2 5 lostError (by decide)).2⟩

/-- C2 counterexample: the Work Function settles first (no loss report at
all), succeeding with a value that is an `Error` instance; `withSdk` does
not return that success value unchanged — it throws it. -/
theorem withSdk_success_error_value_cex :
    (withSdk ⟨⟨Except.ok (), []⟩, RaceWinner.workFirst,
        Except.ok (JsVal.jsError "boom")⟩).1 ≠
      Except.ok (JsVal.jsError "boom") ∧
    (withSdk ⟨⟨Except.ok (), []⟩, RaceWinner.workFirst,
        Except.ok (JsVal.jsError "boom")⟩).1 =
      Except.error (JsVal.jsError "boom") := by
  constructor
  · decide
  · decide

/-- C2 (amended): on a successfully opened session, if the loss signal
settles the race first (the connection was indeed reported lost), `withSdk`
fails with the loss signal's error; if the Work Function settles first,
a failure of the Work Function is propagated unchanged, and a success
value is returned unchanged provided it is not an `Error` instance —
regardless of whether the loss signal fires later (any `lossTimes` are
permitted in the work-first cases). -/
theorem withSdk_race_correctness (lossTimes : List Nat) (winner : RaceWinner)
    (workResult : Except JsVal JsVal) :
    (winner = RaceWinner.lossFirst → lossTimes ≠ [] →
      (withSdk ⟨⟨Except.ok (), lossTimes⟩, winner, workResult⟩).1 =
        Except.error lostError) ∧
    (∀ e, winner = RaceWinner.workFirst → workResult = Except.error e →
      (withSdk ⟨⟨Except.ok (), lossTimes⟩, winner, workResult⟩).1 =
        Except.error e) ∧
    (∀ v, winner = RaceWinner.workFirst → workResult = Except.ok v →
      instanceofError v = false →
      (withSdk ⟨⟨Except.ok (), lossTimes⟩, winner, workResult⟩).1 =
        Except.ok v) := by
  refine ⟨?_, ?_, ?_⟩
  · intro hw hne
    subst hw
    cases lossTimes with
    | nil => exact absurd rfl hne
    | cons a l =>
      simp [withSdk, loadSdk, raceResult, signalResolution_cons, instanceofError,
        lostError]
  · intro e hw hr
    subst hw
    subst hr
    simp [withSdk, loadSdk, raceResult]
  · intro v hw hr hv
    subst hw
    subst hr
    simp [withSdk, loadSdk, raceResult, hv]

/-- Witness for C2 (amended): a lost connection surfaces `lostError`; a
work failure and a non-`Error` work success pass through unchanged. -/
theorem withSdk_race_correctness_witness :
    (withSdk ⟨⟨Except.ok (), [3]⟩, RaceWinner.lossFirst,
        Except.ok (JsVal.jsBool true)⟩).1 = Except.error lostError ∧
    (withSdk ⟨⟨Except.ok (), [3]⟩, RaceWinner.workFirst,
        Except.error (JsVal.jsStr "bad")⟩).1 =
      Except.error (JsVal.jsStr "bad") ∧
    (withSdk ⟨⟨Except.ok (), [3]⟩, RaceWinner.workFirst,
        Except.ok (JsVal.jsBool true)⟩).1 = Except.ok (JsVal.jsBool true) :=
  ⟨(withSdk_race_correctness [3] RaceWinner.lossFirst
      (Except.ok (JsVal.jsBool true))).1 rfl (by decide),
   (withSdk_race_correctness [3] RaceWinner.workFirst
      (Except.error (JsVal.jsStr "bad"))).2.1 (JsVal.jsStr "bad") rfl rfl,
   (withSdk_race_correctness [3] RaceWinner.workFirst
      (Except.ok (JsVal.jsBool true))).2.2 (JsVal.jsBool true) rfl rfl (by decide)⟩

/-- C6: `withSdk` disposes the connection handle if and only if it returns
on the success path (its result is a success value); on the
connection-loss path and on the Work-Function-failure path the handle is
not disposed, and any disposal happens only after the race has settled
(the trace is then exactly race-settlement followed by disposal). -/
theorem withSdk_dispose_iff_success (connect : Except JsVal Unit)
    (lossTimes : List Nat) (winner : RaceWinner)
    (workResult : Except JsVal JsVal) :
    (SdkEvent.dispose ∈ (withSdk ⟨⟨connect, lossTimes⟩, winner, workResult⟩).2 ↔
      ∃ v, (withSdk ⟨⟨connect, lossTimes⟩, winner, workResult⟩).1 =
        Except.ok v) ∧
    (SdkEvent.dispose ∈ (withSdk ⟨⟨connect, lossTimes⟩, winner, workResult⟩).2 →
      (withSdk ⟨⟨connect, lossTimes⟩, winner, workResult⟩).2 =
        [SdkEvent.raceSettled, SdkEvent.dispose]) := by
  cases connect with
  | error e => simp [withSdk, loadSdk]
  | ok u =>
    cases u
    cases hr : raceResult winner workResult (signalResolution lossTimes) with
    | error e => simp [withSdk, loadSdk, hr]
    | ok v =>
      cases hv : instanceofError v with
      | true => simp [withSdk, loadSdk, hr, hv]
      | false => simp [withSdk, loadSdk, hr, hv]

/-- Witness for C6: a non-`Error` work success — the handle is disposed and
the disposal follows the race settlement. -/
theorem withSdk_dispose_iff_success_witness :
    SdkEvent.dispose ∈ (withSdk ⟨⟨Except.ok (), []⟩, RaceWinner.workFirst,
        Except.ok (JsVal.jsBool true)⟩).2 ∧
    (withSdk ⟨⟨Except.ok (), []⟩, RaceWinner.workFirst,
        Except.ok (JsVal.jsBool true)⟩).2 =
      [SdkEvent.raceSettled, SdkEvent.dispose] := by
  have h := withSdk_dispose_iff_success (Except.ok ()) [] RaceWinner.workFirst
    (Except.ok (JsVal.jsBool true))
  have hd : SdkEvent.dispose ∈ (withSdk ⟨⟨Except.ok (), []⟩,
      RaceWinner.workFirst, Except.ok (JsVal.jsBool true)⟩).2 :=
    h.1.mpr ⟨JsVal.jsBool true, by decide⟩
  exact ⟨hd, h.2 hd⟩

/-- C9: if the Work Function settles first and successfully with a value
that is itself an `Error` instance, `withSdk` throws that value to its
caller as if the connection had been lost, and does not dispose the
connection handle. -/
theorem withSdk_error_instance_success (lossTimes : List Nat)
    (workVal : JsVal) (hv : instanceofError workVal = true) :
    (withSdk ⟨⟨Except.ok (), lossTimes⟩, RaceWinner.workFirst,
        Except.ok workVal⟩).1 = Except.error workVal ∧
    SdkEvent.dispose ∉ (withSdk ⟨⟨Except.ok (), lossTimes⟩,
        RaceWinner.workFirst, Except.ok workVal⟩).2 := by
  simp [withSdk, loadSdk, raceResult, hv]

/-- Witness for C9: an `Error`-instance success value is thrown and the
handle is not disposed. -/
theorem withSdk_error_instance_success_witness :
    (withSdk ⟨⟨Except.ok (), [3]⟩, RaceWinner.workFirst,
        Except.ok (JsVal.jsError "boom")⟩).1 =
      Except.error (JsVal.jsError "boom") ∧
    SdkEvent.dispose ∉ (withSdk ⟨⟨Except.ok (), [3]⟩,
        RaceWinner.workFirst, Except.ok (JsVal.jsError "boom")⟩).2 :=
  withSdk_error_instance_success [3] (JsVal.jsError "boom") (by decide)

end ActyxReload
